import Mathlib

/-!
Verification of the Wave Function Collapse solver
(`src/js/demos/WaveFunctionCollapse.js`).

The JavaScript class `WaveFunctionCollapse` is shallowly embedded here:
the mutable solver state (grid of cells, entropy array, conflict list,
completion flag) becomes an explicit `WFC` structure threaded through
pure functions that mirror the source methods `buildConstraints`,
`regenerate`, `getLowestEntropy`, `getStepCount`, `collapseCell`,
`propagate` and `collapseStep`.

Modelling notes:
  * Tiles are `Char`, exactly the characters of `this.tiles`.
  * The 2D arrays `this.grid[y][x]` and `this.entropy[y][x]` are modelled
    as total functions `Nat → Nat → _` (row index first, matching the
    `[y][x]` access order); all source accesses are bounds-checked or
    within the loop ranges, so the function model coincides with the
    array on every access the source performs.
  * `SeededRandom.random()` advances `seed ← (seed * 9301 + 49297) % 233280`
    and returns `seed / 233280`; the draw `Math.floor(random() * n)` is
    modelled in exact integer arithmetic as `nextSeed seed * n / 233280`
    (for `0 ≤ s < 233280` the exact value lies in `[0, n)`, which is the
    only property any proof below uses).
  * The recursion of `propagate` is given explicit fuel; it is proved
    below (`propagate_succ_eq_once`) that every positive fuel computes
    the same result, because the recursive calls hit the
    not-collapsed guard and return immediately.
-/

namespace WFCV

/-- A grid cell: `{ possible, collapsed, value }` from `regenerate`. -/
structure Cell where
  possible : List Char
  collapsed : Bool
  value : Option Char
deriving Repr, DecidableEq

/-- Solver state: the mutable fields of the `WaveFunctionCollapse` class
that the solver core reads and writes. -/
structure WFC where
  cols : Nat
  rows : Nat
  grid : Nat → Nat → Cell
  entropy : Nat → Nat → Nat
  conflicts : List String
  collapsed : Bool

/-- `this.tiles`. -/
def tiles : List Char := [' ', '║', '═', '╔', '╗', '╚', '╝', '╠', '╣', '╦', '╩', '╬']

/-- `hasTop` from `buildConstraints`. -/
def hasTop (t : Char) : Bool := ['║', '╔', '╗', '╠', '╣', '╦', '╬'].contains t

/-- `hasRight` from `buildConstraints`. -/
def hasRight (t : Char) : Bool := ['═', '╔', '╚', '╠', '╦', '╩', '╬'].contains t

/-- `hasBottom` from `buildConstraints`. -/
def hasBottom (t : Char) : Bool := ['║', '╚', '╝', '╠', '╣', '╩', '╬'].contains t

/-- `hasLeft` from `buildConstraints`. -/
def hasLeft (t : Char) : Bool := ['═', '╗', '╝', '╣', '╦', '╩', '╬'].contains t

/-- The four direction keys of a constraint entry. -/
inductive Dir where
  | top
  | right
  | bottom
  | left
deriving Repr, DecidableEq, Fintype

/-- `opposite` as used by the spec: the reverse of each direction. -/
def Dir.opposite : Dir → Dir
  | .top => .bottom
  | .right => .left
  | .bottom => .top
  | .left => .right

/-- One constraint-table entry `{ top: [], right: [], bottom: [], left: [] }`. -/
structure DirSets where
  top : List Char
  right : List Char
  bottom : List Char
  left : List Char
deriving Repr, DecidableEq

/-- Read the list stored for a direction. -/
def DirSets.get (d : DirSets) : Dir → List Char
  | .top => d.top
  | .right => d.right
  | .bottom => d.bottom
  | .left => d.left

/-- `constraints[t].top.push(u)`. -/
def DirSets.pushTop (u : Char) (d : DirSets) : DirSets := { d with top := d.top ++ [u] }

/-- `constraints[t].right.push(u)`. -/
def DirSets.pushRight (u : Char) (d : DirSets) : DirSets := { d with right := d.right ++ [u] }

/-- `constraints[t].bottom.push(u)`. -/
def DirSets.pushBottom (u : Char) (d : DirSets) : DirSets := { d with bottom := d.bottom ++ [u] }

/-- `constraints[t].left.push(u)`. -/
def DirSets.pushLeft (u : Char) (d : DirSets) : DirSets := { d with left := d.left ++ [u] }

/-- The constraint table, a map from tile to its four direction lists,
modelled as an association list in tile order (the JS object keys). -/
def Table := List (Char × DirSets)

/-- Apply `f` to the entry stored under `key` (`constraints[key]`). -/
def tableUpdate (m : List (Char × DirSets)) (key : Char) (f : DirSets → DirSets) :
    List (Char × DirSets) :=
  m.map (fun p => if p.1 = key then (p.1, f p.2) else p)

/-- `buildConstraints()`: initialise an empty entry per tile, then for every
ordered pair `(tile1, tile2)` push the pair into the `bottom`/`top` lists when
`hasBottom tile1 == hasTop tile2` and into the `right`/`left` lists when
`hasRight tile1 == hasLeft tile2`. -/
def buildConstraints : List (Char × DirSets) :=
  let init := tiles.map (fun t => (t, ⟨[], [], [], []⟩))
  tiles.foldl (fun cs tile1 =>
    tiles.foldl (fun cs tile2 =>
      let cs :=
        if hasBottom tile1 = hasTop tile2 then
          tableUpdate (tableUpdate cs tile1 (DirSets.pushBottom tile2)) tile2
            (DirSets.pushTop tile1)
        else cs
      if hasRight tile1 = hasLeft tile2 then
        tableUpdate (tableUpdate cs tile1 (DirSets.pushRight tile2)) tile2
          (DirSets.pushLeft tile1)
      else cs) cs) init

/-- `this.constraints[tile][dir]` (lookup in the built table). -/
def constraintsFor (t : Char) (d : Dir) : List Char :=
  ((buildConstraints.lookup t).getD ⟨[], [], [], []⟩).get d

/-- `SeededRandom`: the seed update performed by one `random()` call,
`this.seed = (this.seed * 9301 + 49297) % 233280`. -/
def nextSeed (s : Nat) : Nat := (s * 9301 + 49297) % 233280

/-- `Math.floor(random.random() * len)` for a fresh `SeededRandom(seedKey)`:
one seed update, then the floor of `seed / 233280 * len`, in exact integer
arithmetic. -/
def drawIndex (seedKey len : Nat) : Nat := nextSeed seedKey * len / 233280

/-- The key of the selector's draw:
`this.framework.getSeed() + this.getStepCount()` (`getLowestEntropy`). -/
def selectorKey (seed stepCount : Nat) : Nat := seed + stepCount

/-- The key of the collapse operator's draw:
`this.framework.getSeed() + x * 1000 + y * 100 + stepCount` (`collapseCell`). -/
def collapseKey (seed x y stepCount : Nat) : Nat := seed + x * 1000 + y * 100 + stepCount

/-- In-place update `this.grid[y][x] = c` on the function-modelled array. -/
def setCell (g : Nat → Nat → Cell) (x y : Nat) (c : Cell) : Nat → Nat → Cell :=
  fun y2 x2 => if y2 = y ∧ x2 = x then c else g y2 x2

/-- In-place update `this.entropy[y][x] = v`. -/
def setEnt (e : Nat → Nat → Nat) (x y v : Nat) : Nat → Nat → Nat :=
  fun y2 x2 => if y2 = y ∧ x2 = x then v else e y2 x2

/-- The conflict key string `` `${x},${y}` ``. -/
def conflictKey (x y : Nat) : String := toString x ++ "," ++ toString y

/-- The coordinates `(x, y)` visited by the source's nested
`for (y ...) for (x ...)` loops, in that (row-major) order. -/
def rowMajor (cols rows : Nat) : List (Nat × Nat) :=
  (List.range rows).flatMap (fun y => (List.range cols).map (fun x => (x, y)))

/-- `regenerate(seed)`: fresh grid of the given dimensions, every cell
`{ possible: [...this.tiles], collapsed: false, value: null }`, the entropy
array at `this.tiles.length`, conflicts emptied, completion flag cleared.
(The seed argument is unused by `regenerate` itself; it is consumed by the
draws, which receive it explicitly in this embedding.) -/
def regenerate (cols rows : Nat) : WFC where
  cols := cols
  rows := rows
  grid := fun _ _ => ⟨tiles, false, none⟩
  entropy := fun _ _ => tiles.length
  conflicts := []
  collapsed := false

/-- `getStepCount()`: count the collapsed cells with the nested row-major
scan. -/
def getStepCount (s : WFC) : Nat :=
  (rowMajor s.cols s.rows).countP (fun c => (s.grid c.2 c.1).collapsed)

/-- One iteration of the scan loop in `getLowestEntropy`: skip collapsed
cells and cells with no possibilities, otherwise track the minimum domain
size (`none` models the initial `Infinity`) and the candidate list. -/
def scanStep (s : WFC) (acc : Option Nat × List (Nat × Nat)) (c : Nat × Nat) :
    Option Nat × List (Nat × Nat) :=
  let cell := s.grid c.2 c.1
  if cell.collapsed then acc
  else
    let e := cell.possible.length
    if e = 0 then acc
    else
      match acc.1 with
      | none => (some e, [c])
      | some m =>
        if e < m then (some e, [c])
        else if e = m then (some m, acc.2 ++ [c])
        else acc

/-- `getLowestEntropy()`: row-major scan for the uncollapsed cells of
minimum nonzero domain size, then a seeded draw over the candidate list,
keyed on the global seed plus the step count. -/
def getLowestEntropy (seed : Nat) (s : WFC) : Option (Nat × Nat) :=
  let scan := (rowMajor s.cols s.rows).foldl (scanStep s) (none, [])
  let candidates := scan.2
  if candidates.length = 0 then none
  else some (candidates.getD (drawIndex (selectorKey seed (getStepCount s))
    candidates.length) (0, 0))

/-- The `choice` drawn by `collapseCell(x, y)`: a seeded draw over the
cell's current domain, keyed on seed, coordinate and step count. -/
def collapseChoice (seed : Nat) (s : WFC) (x y : Nat) : Char :=
  (s.grid y x).possible.getD
    (drawIndex (collapseKey seed x y (getStepCount s)) (s.grid y x).possible.length) ' '

/-- `collapseCell(x, y)`: no-op returning `false` when the cell is collapsed
or its domain is empty; otherwise the drawn `collapseChoice` tile becomes
the cell's whole state `{ possible: [choice], collapsed: true,
value: choice }`, its entropy becomes `0`, and `true` is returned. -/
def collapseCell (seed : Nat) (s : WFC) (x y : Nat) : WFC × Bool :=
  let cell := s.grid y x
  if cell.collapsed ∨ cell.possible.length = 0 then (s, false)
  else
    let choice := collapseChoice seed s x y
    ({ s with
        grid := setCell s.grid x y ⟨[choice], true, some choice⟩,
        entropy := setEnt s.entropy x y 0 }, true)

/-- The `neighbors` array of `propagate`, with its direction tags. -/
def neighborList (x y : Nat) : List (Int × Int × Dir) :=
  [((x : Int), (y : Int) - 1, Dir.top),
   ((x : Int) + 1, (y : Int), Dir.right),
   ((x : Int), (y : Int) + 1, Dir.bottom),
   ((x : Int) - 1, (y : Int), Dir.left)]

/-- The body of `propagate`'s neighbor loop for one neighbor: skip when out
of bounds or collapsed; otherwise filter the neighbor's domain by the
constraint entry of the origin tile, record the coordinate as changed when
the domain shrank, and on an emptied domain push the conflict key (if new)
and reset the domain to the full catalog, else remove the conflict key. -/
def processNeighbor (tile : Char) (acc : WFC × List (Nat × Nat))
    (nb : Int × Int × Dir) : WFC × List (Nat × Nat) :=
  let s := acc.1
  let changed := acc.2
  let nx := nb.1
  let ny := nb.2.1
  let dir := nb.2.2
  if nx < 0 ∨ (s.cols : Int) ≤ nx ∨ ny < 0 ∨ (s.rows : Int) ≤ ny then acc
  else
    let px := nx.toNat
    let py := ny.toNat
    let nCell := s.grid py px
    if nCell.collapsed then acc
    else
      let allowed := constraintsFor tile dir
      let before := nCell.possible.length
      let filtered := nCell.possible.filter (fun t => allowed.contains t)
      let after := filtered.length
      let entropy1 := if after < before then setEnt s.entropy px py after else s.entropy
      let changed1 := if after < before then changed ++ [(px, py)] else changed
      let key := conflictKey px py
      if after = 0 then
        ({ s with
            grid := setCell s.grid px py { nCell with possible := tiles },
            entropy := setEnt entropy1 px py tiles.length,
            conflicts :=
              if s.conflicts.contains key then s.conflicts
              else s.conflicts ++ [key] }, changed1)
      else
        ({ s with
            grid := setCell s.grid px py { nCell with possible := filtered },
            entropy := entropy1,
            conflicts := s.conflicts.erase key }, changed1)

/-- `propagate(x, y)` with explicit recursion fuel: return unchanged unless
the origin cell is collapsed; otherwise run the neighbor loop and then
recursively propagate from each changed coordinate.  Every positive fuel
computes the same state (see `propagate_succ_eq_once`): the recursive calls
start at uncollapsed cells and return at the guard. -/
def propagate : Nat → WFC → Nat → Nat → WFC
  | 0, s, _, _ => s
  | fuel + 1, s, x, y =>
    let cell := s.grid y x
    if cell.collapsed = false then s
    else
      let tile := cell.value.getD ' '
      let res := (neighborList x y).foldl (processNeighbor tile) (s, [])
      res.2.foldl (fun st c => propagate fuel st c.1 c.2) res.1

/-- Fuel large enough for `propagate`'s recursion tree on any run. -/
def stepFuel (s : WFC) : Nat := s.rows * s.cols + 1

/-- `collapseStep()`: ask the selector for a coordinate; when none, set the
completion flag; otherwise collapse that cell (result bit discarded, as in
the source) and propagate from it. -/
def collapseStep (seed : Nat) (s : WFC) : WFC :=
  match getLowestEntropy seed s with
  | none => { s with collapsed := true }
  | some c =>
    let s1 := (collapseCell seed s c.1 c.2).1
    propagate (stepFuel s1) s1 c.1 c.2

/-- The state after `n` driver-invoked `collapseStep` calls on a freshly
regenerated grid. -/
def stepN (seed cols rows : Nat) : Nat → WFC
  | 0 => regenerate cols rows
  | n + 1 => collapseStep seed (stepN seed cols rows n)

/-!  Spec-side definitions: these follow the words of the specification and
of the claims (selector characterisation, arc-consistency fixpoint, cell
counts); the theorems below relate them to the source-translated
definitions above.  -/

/-- The domain size (entropy) of the cell at a coordinate. -/
def entC (s : WFC) (c : Nat × Nat) : Nat := (s.grid c.2 c.1).possible.length

/-- The scan's skip conditions, combined: an uncollapsed cell with a
nonzero domain size. -/
def isLive (s : WFC) (c : Nat × Nat) : Bool :=
  !(s.grid c.2 c.1).collapsed && entC s c != 0

/-- Spec wording (§4.2): the uncollapsed cells whose domain size is
nonzero, in row-major scan order. -/
def liveCellsSpec (s : WFC) : List (Nat × Nat) :=
  (rowMajor s.cols s.rows).filter (isLive s)

/-- Spec wording: the minimum domain size over the live cells
(`0` when there are none). -/
def minEntropySpec (s : WFC) : Nat :=
  match (liveCellsSpec s).map (entC s) with
  | [] => 0
  | e :: es => es.foldl min e

/-- Spec wording: the candidate list — live cells achieving the minimum
domain size, in row-major scan order. -/
def candidatesSpec (s : WFC) : List (Nat × Nat) :=
  (liveCellsSpec s).filter (fun c => entC s c == minEntropySpec s)

/-- A single propagation pass as claim C1 describes the base step: the
constraint-intersection rule applied once to each neighbor of the origin
(the neighbor loop of `propagate`, without the recursive cascade). -/
def propagateOnce (s : WFC) (x y : Nat) : WFC :=
  let cell := s.grid y x
  if cell.collapsed = false then s
  else
    ((neighborList x y).foldl (processNeighbor (cell.value.getD ' ')) (s, [])).1

/-- Claim C1's arc rule: tile `t` is supported in a cell sitting in
direction `d` of a cell with domain `src` when some member of `src` allows
`t` in direction `d`. -/
def arcSupported (src : List Char) (d : Dir) (t : Char) : Bool :=
  src.any (fun u => (constraintsFor u d).contains t)

/-- Claim C1's fixpoint condition ("no further domain change is possible
anywhere reachable"): for every cell and every in-bounds uncollapsed
neighbor, re-applying the constraint-intersection rule to the neighbor's
domain changes nothing. -/
def noFurtherChange (s : WFC) : Bool :=
  (rowMajor s.cols s.rows).all (fun c =>
    (neighborList c.1 c.2).all (fun nb =>
      if nb.1 < 0 ∨ (s.cols : Int) ≤ nb.1 ∨ nb.2.1 < 0 ∨ (s.rows : Int) ≤ nb.2.1 then
        true
      else
        let nCell := s.grid nb.2.1.toNat nb.1.toNat
        if nCell.collapsed then true
        else
          nCell.possible.filter (arcSupported (s.grid c.2 c.1).possible nb.2.2)
            == nCell.possible))

/-- The number of in-bounds uncollapsed cells. -/
def uncollapsedCount (s : WFC) : Nat :=
  ((rowMajor s.cols s.rows).filter (fun c => !(s.grid c.2 c.1).collapsed)).length

/-- Whether a `collapseStep` from state `s` performs a successful collapse
(the selector yields a coordinate and `collapseCell` returns `true`). -/
def stepSucceeds (seed : Nat) (s : WFC) : Bool :=
  match getLowestEntropy seed s with
  | none => false
  | some c => (collapseCell seed s c.1 c.2).2

/-- How many of the first `n` steps of a run perform a successful
collapse. -/
def successCount (seed cols rows n : Nat) : Nat :=
  (List.range n).countP (fun i => stepSucceeds seed (stepN seed cols rows i))

/-- The cell invariant of spec §3 for a grid function: a collapsed cell's
domain is exactly its resolved value. -/
def InvG (g : Nat → Nat → Cell) : Prop :=
  ∀ x y : Nat, (g y x).collapsed = true →
    ∃ v, (g y x).value = some v ∧ (g y x).possible = [v]

/-- The min/candidate tracking core of the scan, with the skip conditions
factored out (`none` models the initial `Infinity`). -/
def mcStep (f : Nat × Nat → Nat) (acc : Option Nat × List (Nat × Nat))
    (c : Nat × Nat) : Option Nat × List (Nat × Nat) :=
  match acc.1 with
  | none => (some (f c), [c])
  | some m =>
    if f c < m then (some (f c), [c])
    else if f c = m then (some m, acc.2 ++ [c])
    else acc

/-- State used by the C1 counterexample: a 3×1 grid whose origin `(0, 0)`
is collapsed to `'═'` and whose middle cell has already been narrowed to
`[' ', '═']`; the right cell still holds the full catalog. -/
def c1state : WFC where
  cols := 3
  rows := 1
  grid := setCell (setCell (fun _ _ => ⟨tiles, false, none⟩) 0 0 ⟨['═'], true, some '═'⟩)
    1 0 ⟨[' ', '═'], false, none⟩
  entropy := fun _ _ => tiles.length
  conflicts := []
  collapsed := false

/-- The outcome of the construction call (`regenerate`, reached from
`init`), as a JavaScript call outcome: a returned value or a thrown error.
The source performs no input validation and has no throw path, so every
input — zero dimensions included — produces a grid. -/
def regenerateOutcome (cols rows : Nat) : Except String WFC :=
  Except.ok (regenerate cols rows)

/-- State used by the C2 witness: a 2×1 grid whose origin is collapsed to
`'═'` and whose right neighbor holds only `'║'` (incompatible on the
shared edge), with that neighbor's key already in the conflict set. -/
def c2state : WFC where
  cols := 2
  rows := 1
  grid := setCell (setCell (fun _ _ => ⟨tiles, false, none⟩) 0 0 ⟨['═'], true, some '═'⟩)
    1 0 ⟨['║'], false, none⟩
  entropy := fun _ _ => tiles.length
  conflicts := [conflictKey 1 0]
  collapsed := false

/-! ### Generic helper lemmas -/

/-- A property preserved by every step of a `foldl` holds of the result. -/
theorem foldlPreserve {α β : Type} (P : α → Prop) (f : α → β → α) :
    ∀ (l : List β) (a : α), P a → (∀ a b, P a → P (f a b)) → P (l.foldl f a)
  | [], _, ha, _ => ha
  | b :: l, a, ha, hstep => foldlPreserve P f l (f a b) (hstep a b ha) hstep

/-- The seed produced by one `SeededRandom.random()` call is below the
modulus. -/
theorem nextSeed_lt (s : Nat) : nextSeed s < 233280 :=
  Nat.mod_lt _ (by decide)

/-- A draw over a nonempty list yields an index inside the list. -/
theorem drawIndex_lt (k len : Nat) (h : 0 < len) : drawIndex k len < len := by
  have h1 : nextSeed k * len < len * 233280 := by
    calc nextSeed k * len < 233280 * len :=
          (Nat.mul_lt_mul_right h).mpr (nextSeed_lt k)
      _ = len * 233280 := Nat.mul_comm _ _
  exact (Nat.div_lt_iff_lt_mul (by decide)).mpr h1

/-! ### Frame and preservation lemmas for the propagator -/

/-- `processNeighbor` never changes the dimensions or the solver-level
completion flag. -/
theorem pn_meta (tile : Char) (acc : WFC × List (Nat × Nat)) (nb : Int × Int × Dir) :
    (processNeighbor tile acc nb).1.cols = acc.1.cols ∧
    (processNeighbor tile acc nb).1.rows = acc.1.rows ∧
    (processNeighbor tile acc nb).1.collapsed = acc.1.collapsed := by
  simp only [processNeighbor]
  split
  · exact ⟨rfl, rfl, rfl⟩
  · split
    · exact ⟨rfl, rfl, rfl⟩
    · split <;> exact ⟨rfl, rfl, rfl⟩

/-- `processNeighbor` never changes any cell's collapsed flag. -/
theorem pn_flag (tile : Char) (acc : WFC × List (Nat × Nat)) (nb : Int × Int × Dir)
    (x y : Nat) :
    ((processNeighbor tile acc nb).1.grid y x).collapsed =
      (acc.1.grid y x).collapsed := by
  simp only [processNeighbor]
  split
  · rfl
  · split
    · rfl
    · split <;>
      · simp only [setCell]
        split
        next h => rw [h.1, h.2]
        next => rfl

/-- `processNeighbor` leaves every collapsed cell entirely unchanged. -/
theorem pn_collapsed_frame (tile : Char) (acc : WFC × List (Nat × Nat))
    (nb : Int × Int × Dir) (x y : Nat)
    (h : (acc.1.grid y x).collapsed = true) :
    (processNeighbor tile acc nb).1.grid y x = acc.1.grid y x := by
  simp only [processNeighbor]
  split
  · rfl
  · split
    · rfl
    · next hnc =>
      split <;>
      · simp only [setCell]
        split
        next heq =>
          rw [heq.1, heq.2] at h
          exact absurd h hnc
        next => rfl

/-- Every coordinate recorded as changed by `processNeighbor` points at an
uncollapsed cell of the resulting state. -/
theorem pn_changed_uncollapsed (tile : Char) (acc : WFC × List (Nat × Nat))
    (nb : Int × Int × Dir)
    (h : ∀ c ∈ acc.2, ((acc.1.grid c.2 c.1).collapsed = false)) :
    ∀ c ∈ (processNeighbor tile acc nb).2,
      (((processNeighbor tile acc nb).1.grid c.2 c.1).collapsed = false) := by
  intro c hc
  rw [pn_flag]
  revert hc
  simp only [processNeighbor]
  split
  · exact h c
  · split
    · exact h c
    · next hnc =>
      split <;>
      · intro hc
        simp only at hc
        split at hc
        · rcases List.mem_append.mp hc with h1 | h2
          · exact h c h1
          · rcases List.mem_singleton.mp h2 with rfl
            simpa using hnc
        · exact h c hc

/-- `propagate` is the identity on states whose origin cell is not
collapsed (the `if (!cell.collapsed) return;` guard). -/
theorem propagate_of_not_collapsed (fuel : Nat) (s : WFC) (x y : Nat)
    (h : (s.grid y x).collapsed = false) : propagate fuel s x y = s := by
  cases fuel with
  | zero => rfl
  | succ n => simp [propagate, h]

/-- Folding the recursive `propagate` calls over coordinates of uncollapsed
cells leaves the state unchanged. -/
theorem fold_propagate_noop (fuel : Nat) :
    ∀ (l : List (Nat × Nat)) (st : WFC),
      (∀ c ∈ l, (st.grid c.2 c.1).collapsed = false) →
      l.foldl (fun st c => propagate fuel st c.1 c.2) st = st := by
  intro l
  induction l with
  | nil => intro st _; rfl
  | cons c t ih =>
    intro st h
    have h1 : propagate fuel st c.1 c.2 = st :=
      propagate_of_not_collapsed fuel st c.1 c.2 (h c (List.mem_cons_self c t))
    simp only [List.foldl_cons, h1]
    exact ih st (fun d hd => h d (List.mem_cons_of_mem c hd))

/-- The cells recorded as changed by the neighbor pass are all uncollapsed
in the state the pass produces. -/
theorem pass_changed_uncollapsed (tile : Char) (s : WFC) (x y : Nat) :
    ∀ c ∈ ((neighborList x y).foldl (processNeighbor tile) (s, [])).2,
      ((((neighborList x y).foldl (processNeighbor tile) (s, [])).1.grid
        c.2 c.1).collapsed = false) := by
  exact foldlPreserve
    (fun acc => ∀ c ∈ acc.2, ((acc.1.grid c.2 c.1).collapsed = false))
    (processNeighbor tile) (neighborList x y) (s, [])
    (by intro c hc; simp at hc)
    (fun acc nb h => pn_changed_uncollapsed tile acc nb h)

/-- With any positive fuel, `propagate` computes exactly the single
neighbor pass: each recursive call starts at a cell left uncollapsed by
the pass and returns at the not-collapsed guard. -/
theorem propagate_succ_eq_once (fuel : Nat) (s : WFC) (x y : Nat) :
    propagate (fuel + 1) s x y = propagateOnce s x y := by
  simp only [propagate, propagateOnce]
  split
  · rfl
  · exact fold_propagate_noop fuel _ _ (pass_changed_uncollapsed _ s x y)

/-- `propagate` preserves the dimensions, the solver-level flag, and every
cell's collapsed flag. -/
theorem propagate_meta (fuel : Nat) (s : WFC) (x y : Nat) :
    (propagate fuel s x y).cols = s.cols ∧
    (propagate fuel s x y).rows = s.rows ∧
    (propagate fuel s x y).collapsed = s.collapsed ∧
    ∀ x2 y2 : Nat,
      ((propagate fuel s x y).grid y2 x2).collapsed = (s.grid y2 x2).collapsed := by
  cases fuel with
  | zero => exact ⟨rfl, rfl, rfl, fun _ _ => rfl⟩
  | succ n =>
    rw [propagate_succ_eq_once]
    simp only [propagateOnce]
    split
    · exact ⟨rfl, rfl, rfl, fun _ _ => rfl⟩
    · have := foldlPreserve
        (fun acc : WFC × List (Nat × Nat) =>
          acc.1.cols = s.cols ∧ acc.1.rows = s.rows ∧
          acc.1.collapsed = s.collapsed ∧
          ∀ x2 y2 : Nat, ((acc.1.grid y2 x2).collapsed = (s.grid y2 x2).collapsed))
        (processNeighbor ((s.grid y x).value.getD ' ')) (neighborList x y) (s, [])
        ⟨rfl, rfl, rfl, fun _ _ => rfl⟩
        (by
          intro acc nb h
          obtain ⟨h1, h2, h3, h4⟩ := h
          obtain ⟨m1, m2, m3⟩ := pn_meta _ acc nb
          refine ⟨m1.trans h1, m2.trans h2, m3.trans h3, ?_⟩
          intro x2 y2
          rw [pn_flag]
          exact h4 x2 y2)
      exact this

/-- `propagate` leaves every collapsed cell entirely unchanged. -/
theorem propagate_collapsed_frame (fuel : Nat) (s : WFC) (x y x2 y2 : Nat)
    (h : (s.grid y2 x2).collapsed = true) :
    (propagate fuel s x y).grid y2 x2 = s.grid y2 x2 := by
  cases fuel with
  | zero => rfl
  | succ n =>
    rw [propagate_succ_eq_once]
    simp only [propagateOnce]
    split
    · rfl
    · have := foldlPreserve
        (fun acc : WFC × List (Nat × Nat) => acc.1.grid y2 x2 = s.grid y2 x2)
        (processNeighbor ((s.grid y x).value.getD ' ')) (neighborList x y) (s, [])
        rfl
        (by
          intro acc nb hacc
          rw [← hacc]
          exact pn_collapsed_frame _ acc nb x2 y2 (by rw [hacc]; exact h))
      exact this

/-- `propagate` preserves the cell invariant. -/
theorem propagate_InvG (fuel : Nat) (s : WFC) (x y : Nat)
    (h : InvG s.grid) : InvG (propagate fuel s x y).grid := by
  intro x2 y2 hcol
  have hflag : (s.grid y2 x2).collapsed = true := by
    have := (propagate_meta fuel s x y).2.2.2 x2 y2
    rw [← this]
    exact hcol
  rw [propagate_collapsed_frame fuel s x y x2 y2 hflag]
  exact h x2 y2 hflag

/-! ### Characterisation of the entropy scan -/

/-- `scanStep` is `mcStep` guarded by the skip conditions. -/
theorem scanStep_eq (s : WFC) (acc : Option Nat × List (Nat × Nat)) (c : Nat × Nat) :
    scanStep s acc c = if isLive s c then mcStep (entC s) acc c else acc := by
  simp only [scanStep, isLive, mcStep, entC]
  by_cases h1 : (s.grid c.2 c.1).collapsed
  · simp [h1]
  · by_cases h2 : (s.grid c.2 c.1).possible.length = 0
    · simp [h1, h2]
    · simp [h1, h2]

/-- A fold whose step skips elements failing `p` is a fold over the
filtered list. -/
theorem foldl_skip {α β : Type} (p : α → Bool) (g : β → α → β) :
    ∀ (l : List α) (a : β),
      l.foldl (fun acc c => if p c then g acc c else acc) a = (l.filter p).foldl g a := by
  intro l
  induction l with
  | nil => intro a; rfl
  | cons c t ih =>
    intro a
    by_cases h : p c <;> simp [List.filter_cons, h, ih]

/-- A running minimum is bounded by its initial value. -/
theorem foldl_min_le (f : Nat × Nat → Nat) :
    ∀ (l : List (Nat × Nat)) (a : Nat), l.foldl (fun x c => min x (f c)) a ≤ a := by
  intro l
  induction l with
  | nil => intro a; exact Nat.le_refl a
  | cons c t ih =>
    intro a
    exact Nat.le_trans (ih (min a (f c))) (Nat.min_le_left _ _)

/-- A running minimum is its initial value or is attained in the list. -/
theorem foldl_min_mem (f : Nat × Nat → Nat) :
    ∀ (l : List (Nat × Nat)) (a : Nat),
      l.foldl (fun x c => min x (f c)) a = a ∨
      ∃ c ∈ l, l.foldl (fun x c => min x (f c)) a = f c := by
  intro l
  induction l with
  | nil => intro a; exact Or.inl rfl
  | cons c t ih =>
    intro a
    rcases ih (min a (f c)) with h | ⟨d, hd, he⟩
    · rcases min_choice a (f c) with hm | hm
      · exact Or.inl (by simp only [List.foldl_cons]; rw [h, hm])
      · exact Or.inr ⟨c, List.mem_cons_self c t,
          by simp only [List.foldl_cons]; rw [h, hm]⟩
    · exact Or.inr ⟨d, List.mem_cons_of_mem c hd, by simp only [List.foldl_cons]; exact he⟩

/-- Closed form of the min/candidate fold from a known minimum: the final
minimum folds `min` over the list, and the candidates are the previous ones
(kept when the minimum did not drop) followed by the elements attaining the
final minimum. -/
theorem mcFold_some (f : Nat × Nat → Nat) :
    ∀ (l : List (Nat × Nat)) (m : Nat) (cs : List (Nat × Nat)),
      l.foldl (mcStep f) (some m, cs) =
        (some (l.foldl (fun a c => min a (f c)) m),
         (if l.foldl (fun a c => min a (f c)) m = m then cs else []) ++
           l.filter (fun c => f c == l.foldl (fun a c => min a (f c)) m)) := by
  intro l
  induction l with
  | nil => intro m cs; simp
  | cons c t ih =>
    intro m cs
    simp only [List.foldl_cons]
    rcases Nat.lt_trichotomy (f c) m with hlt | heq | hgt
    · have hmm : min m (f c) = f c := Nat.min_eq_right (Nat.le_of_lt hlt)
      have hstep : mcStep f (some m, cs) c = (some (f c), [c]) := by
        simp [mcStep, hlt]
      simp only [hstep, hmm, ih (f c) [c]]
      have hM : t.foldl (fun a c => min a (f c)) (f c) ≤ f c := foldl_min_le f t (f c)
      have hMm : t.foldl (fun a c => min a (f c)) (f c) ≠ m :=
        Nat.ne_of_lt (Nat.lt_of_le_of_lt hM hlt)
      rw [if_neg hMm, List.filter_cons]
      by_cases hc : t.foldl (fun a c => min a (f c)) (f c) = f c
      · rw [if_pos hc]
        have hbeq : (f c == t.foldl (fun a c => min a (f c)) (f c)) = true := by
          simp [hc]
        simp [hbeq]
      · rw [if_neg hc]
        have hbeq : (f c == t.foldl (fun a c => min a (f c)) (f c)) = false := by
          simp
          exact fun h => hc h.symm
        simp [hbeq]
    · have hmm : min m (f c) = m := by rw [heq]; exact Nat.min_self m
      have hstep : mcStep f (some m, cs) c = (some m, cs ++ [c]) := by
        simp [mcStep, heq, Nat.lt_irrefl]
      simp only [hstep, hmm, ih m (cs ++ [c])]
      rw [List.filter_cons]
      by_cases hM : t.foldl (fun a c => min a (f c)) m = m
      · rw [if_pos hM, if_pos hM]
        have hbeq : (f c == t.foldl (fun a c => min a (f c)) m) = true := by
          simp [hM, heq]
        simp [hbeq, List.append_assoc]
      · rw [if_neg hM, if_neg hM]
        have hbeq : (f c == t.foldl (fun a c => min a (f c)) m) = false := by
          simp [heq]
          exact fun h => hM h.symm
        simp [hbeq]
    · have hmm : min m (f c) = m := Nat.min_eq_left (Nat.le_of_lt hgt)
      have hstep : mcStep f (some m, cs) c = (some m, cs) := by
        simp [mcStep, Nat.lt_asymm hgt, Nat.ne_of_gt hgt]
      simp only [hstep, hmm, ih m cs]
      rw [List.filter_cons]
      have hMle : t.foldl (fun a c => min a (f c)) m ≤ m := foldl_min_le f t m
      have hbeq : (f c == t.foldl (fun a c => min a (f c)) m) = false := by
        simp
        exact Nat.ne_of_gt (Nat.lt_of_le_of_lt hMle hgt)
      simp [hbeq]

/-- The scan's candidate list is exactly the spec's candidate list: live
cells attaining the minimum entropy, in row-major order. -/
theorem scan_snd (s : WFC) :
    ((rowMajor s.cols s.rows).foldl (scanStep s) (none, [])).2 = candidatesSpec s := by
  have hfn : scanStep s = fun acc c => if isLive s c then mcStep (entC s) acc c else acc :=
    funext fun acc => funext fun c => scanStep_eq s acc c
  rw [hfn, foldl_skip (isLive s) (mcStep (entC s))]
  show ((liveCellsSpec s).foldl (mcStep (entC s)) (none, [])).2 = candidatesSpec s
  rcases hl : liveCellsSpec s with _ | ⟨c, t⟩
  · simp [candidatesSpec, hl]
  · have hstep : mcStep (entC s) (none, []) c = (some (entC s c), [c]) := rfl
    simp only [List.foldl_cons, hstep]
    rw [mcFold_some (entC s) t (entC s c) [c]]
    have hmin : minEntropySpec s = t.foldl (fun a c => min a (entC s c)) (entC s c) := by
      simp only [minEntropySpec, hl, List.map_cons]
      rw [List.foldl_map]
    simp only [candidatesSpec, hl]
    rw [List.filter_cons]
    by_cases hc : entC s c == minEntropySpec s
    · have hc2 : t.foldl (fun a c => min a (entC s c)) (entC s c) = entC s c := by
        rw [← hmin]; exact (eq_of_beq hc).symm
      rw [if_pos hc2]
      simp only [hc2, ← hmin]
      rw [show minEntropySpec s = entC s c from hmin.trans hc2] at hc ⊢
      simp [hc]
    · have hc2 : t.foldl (fun a c => min a (entC s c)) (entC s c) ≠ entC s c := by
        rw [← hmin]
        intro h
        exact hc (by simp [h])
      rw [if_neg hc2]
      simp only [← hmin]
      simp [hc]

/-- `getLowestEntropy` in terms of the spec's candidate list: `none` when
it is empty, otherwise the seeded draw over it. -/
theorem getLowestEntropy_eq (seed : Nat) (s : WFC) :
    getLowestEntropy seed s =
      (if (candidatesSpec s).length = 0 then none
       else some ((candidatesSpec s).getD
         (drawIndex (selectorKey seed (getStepCount s)) (candidatesSpec s).length)
         (0, 0))) := by
  simp only [getLowestEntropy]
  rw [scan_snd]

/-- The candidate list is empty exactly when no live cell exists. -/
theorem candidatesSpec_nil_iff (s : WFC) :
    candidatesSpec s = [] ↔ liveCellsSpec s = [] := by
  constructor
  · intro h
    rcases hl : liveCellsSpec s with _ | ⟨c, t⟩
    · rfl
    · exfalso
      have hmin : minEntropySpec s = t.foldl (fun a d => min a (entC s d)) (entC s c) := by
        simp only [minEntropySpec, hl, List.map_cons]
        rw [List.foldl_map]
      rcases foldl_min_mem (entC s) t (entC s c) with hm | ⟨d, hd, he⟩
      · have : c ∈ candidatesSpec s := by
          simp only [candidatesSpec, hl]
          refine List.mem_filter.mpr ⟨List.mem_cons_self c t, ?_⟩
          simp [hmin, hm]
        rw [h] at this
        exact absurd this (List.not_mem_nil c)
      · have : d ∈ candidatesSpec s := by
          simp only [candidatesSpec, hl]
          refine List.mem_filter.mpr ⟨List.mem_cons_of_mem c hd, ?_⟩
          simp [hmin, he]
        rw [h] at this
        exact absurd this (List.not_mem_nil d)
  · intro h
    simp [candidatesSpec, h]

/-! ### Row-major scan facts and cell counting -/

theorem rowMajor_succ (cols r : Nat) :
    rowMajor cols (r + 1) = rowMajor cols r ++ (List.range cols).map (fun x => (x, r)) := by
  simp [rowMajor, List.range_succ]

theorem rowMajor_length (cols rows : Nat) : (rowMajor cols rows).length = rows * cols := by
  induction rows with
  | zero => simp [rowMajor]
  | succ r ih =>
    rw [rowMajor_succ, List.length_append, ih, List.length_map, List.length_range,
      Nat.succ_mul]

theorem mem_rowMajor (cols rows : Nat) (c : Nat × Nat) :
    c ∈ rowMajor cols rows ↔ c.1 < cols ∧ c.2 < rows := by
  simp only [rowMajor, List.mem_flatMap, List.mem_map, List.mem_range]
  constructor
  · rintro ⟨y, hy, x, hx, rfl⟩
    exact ⟨hx, hy⟩
  · rintro ⟨h1, h2⟩
    exact ⟨c.2, h2, c.1, h1, rfl⟩

theorem nodup_rowMajor (cols rows : Nat) : (rowMajor cols rows).Nodup := by
  induction rows with
  | zero => exact List.nodup_nil
  | succ r ih =>
    rw [rowMajor_succ]
    refine List.Nodup.append ih ?_ ?_
    · exact (List.nodup_range cols).map (fun a b h => (Prod.mk.injEq ..).mp h |>.1)
    · intro c hc hc2
      rcases List.mem_map.mp hc2 with ⟨x, _, rfl⟩
      have := ((mem_rowMajor cols r (x, r)).mp hc).2
      exact Nat.lt_irrefl r this

/-- Flipping one satisfied predicate position to unsatisfied, on a
duplicate-free list containing it, drops the filtered length by one. -/
theorem filter_length_flip {α : Type} [DecidableEq α] :
    ∀ (L : List α) (p q : α → Bool) (c0 : α), L.Nodup → c0 ∈ L →
      p c0 = true → q c0 = false → (∀ c, c ≠ c0 → q c = p c) →
      (L.filter q).length + 1 = (L.filter p).length := by
  intro L
  induction L with
  | nil => intro p q c0 _ h; exact absurd h (List.not_mem_nil c0)
  | cons a t ih =>
    intro p q c0 hnd hmem hp hq hother
    rcases List.nodup_cons.mp hnd with ⟨hnotin, hndt⟩
    by_cases hac : a = c0
    · subst hac
      rw [List.filter_cons, List.filter_cons, hp, hq]
      simp only [if_pos rfl]
      have : t.filter q = t.filter p := by
        apply List.filter_congr
        intro c hc
        exact hother c (fun h => hnotin (h ▸ hc))
      rw [this]
      simp
    · have hqa : q a = p a := hother a hac
      have hmemt : c0 ∈ t := by
        rcases List.mem_cons.mp hmem with h | h
        · exact absurd h.symm hac
        · exact h
      rw [List.filter_cons, List.filter_cons, hqa]
      by_cases hpa : p a = true
      · rw [hpa]
        simp only [if_true, List.length_cons]
        have := ih p q c0 hndt hmemt hp hq hother
        omega
      · rw [Bool.not_eq_true] at hpa
        rw [hpa]
        simp only [Bool.false_eq_true, if_false]
        exact ih p q c0 hndt hmemt hp hq hother

/-- A failed `collapseCell` changes nothing and reports `false`. -/
theorem collapseCell_fail (seed : Nat) (s : WFC) (x y : Nat)
    (h : (s.grid y x).collapsed = true ∨ (s.grid y x).possible.length = 0) :
    collapseCell seed s x y = (s, false) := by
  rcases h with h | h <;> simp [collapseCell, h]

/-- A successful `collapseCell` produces exactly the updated state and
reports `true`. -/
theorem collapseCell_success (seed : Nat) (s : WFC) (x y : Nat)
    (hcol : (s.grid y x).collapsed = false)
    (hne : (s.grid y x).possible.length ≠ 0) :
    collapseCell seed s x y =
      ({ s with
          grid := setCell s.grid x y
            ⟨[collapseChoice seed s x y], true, some (collapseChoice seed s x y)⟩,
          entropy := setEnt s.entropy x y 0 }, true) := by
  simp [collapseCell, hcol, hne]

/-- The drawn tile is a member of the cell's domain. -/
theorem collapseChoice_mem (seed : Nat) (s : WFC) (x y : Nat)
    (hne : (s.grid y x).possible.length ≠ 0) :
    collapseChoice seed s x y ∈ (s.grid y x).possible := by
  have hlt : drawIndex (collapseKey seed x y (getStepCount s))
      (s.grid y x).possible.length < (s.grid y x).possible.length :=
    drawIndex_lt _ _ (Nat.pos_of_ne_zero hne)
  rw [collapseChoice, List.getD_eq_getElem _ _ hlt]
  exact List.getElem_mem hlt

/-- A successful collapse at an in-bounds coordinate lowers the number of
uncollapsed cells by exactly one. -/
theorem uncollapsedCount_collapseCell (seed : Nat) (s : WFC) (x y : Nat)
    (hx : x < s.cols) (hy : y < s.rows)
    (hcol : (s.grid y x).collapsed = false)
    (hne : (s.grid y x).possible.length ≠ 0) :
    uncollapsedCount (collapseCell seed s x y).1 + 1 = uncollapsedCount s := by
  rw [collapseCell_success seed s x y hcol hne]
  simp only [uncollapsedCount]
  refine filter_length_flip (rowMajor s.cols s.rows) _ _ (x, y)
    (nodup_rowMajor s.cols s.rows) ((mem_rowMajor s.cols s.rows (x, y)).mpr ⟨hx, hy⟩)
    (by simp [hcol]) (by simp [setCell]) ?_
  intro c hc
  simp only [setCell]
  rw [if_neg]
  intro hcontra
  exact hc (Prod.ext hcontra.2 hcontra.1)

/-- `propagate` does not change the number of uncollapsed cells. -/
theorem uncollapsedCount_propagate (fuel : Nat) (s : WFC) (x y : Nat) :
    uncollapsedCount (propagate fuel s x y) = uncollapsedCount s := by
  obtain ⟨hc, hr, _, hflag⟩ := propagate_meta fuel s x y
  simp only [uncollapsedCount, hc, hr]
  congr 1
  apply List.filter_congr
  intro c _
  rw [hflag c.1 c.2]

/-! ### Selector and step-level lemmas -/

/-- A coordinate returned by the selector is one of the spec candidates. -/
theorem selector_some_mem (seed : Nat) (s : WFC) (c : Nat × Nat)
    (h : getLowestEntropy seed s = some c) : c ∈ candidatesSpec s := by
  rw [getLowestEntropy_eq] at h
  by_cases hlen : (candidatesSpec s).length = 0
  · rw [if_pos hlen] at h
    exact absurd h (by simp)
  · rw [if_neg hlen] at h
    have hc := Option.some.inj h
    have hlt : drawIndex (selectorKey seed (getStepCount s)) (candidatesSpec s).length <
        (candidatesSpec s).length :=
      drawIndex_lt _ _ (Nat.pos_of_ne_zero hlen)
    rw [← hc, List.getD_eq_getElem _ _ hlt]
    exact List.getElem_mem hlt

/-- Unpacked facts about a live cell. -/
theorem liveCellsSpec_mem (s : WFC) (c : Nat × Nat) (h : c ∈ liveCellsSpec s) :
    c.1 < s.cols ∧ c.2 < s.rows ∧ (s.grid c.2 c.1).collapsed = false ∧
      (s.grid c.2 c.1).possible.length ≠ 0 := by
  rcases List.mem_filter.mp h with ⟨hmem, hlive⟩
  rcases (mem_rowMajor s.cols s.rows c).mp hmem with ⟨h1, h2⟩
  simp only [isLive, entC, Bool.and_eq_true, Bool.not_eq_true', bne_iff_ne] at hlive
  exact ⟨h1, h2, hlive.1, hlive.2⟩

/-- When every in-bounds cell is collapsed, the selector returns `none`. -/
theorem selector_none_of_count_zero (seed : Nat) (s : WFC)
    (h : uncollapsedCount s = 0) : getLowestEntropy seed s = none := by
  have hall : ∀ c ∈ rowMajor s.cols s.rows, (s.grid c.2 c.1).collapsed = true := by
    intro c hc
    have hnil : (rowMajor s.cols s.rows).filter (fun c => !(s.grid c.2 c.1).collapsed) = [] :=
      List.length_eq_zero.mp h
    have := List.filter_eq_nil_iff.mp hnil c hc
    simpa using this
  have hlive : liveCellsSpec s = [] := by
    apply List.filter_eq_nil_iff.mpr
    intro c hc
    simp [isLive, hall c hc]
  rw [getLowestEntropy_eq]
  rw [if_pos]
  rw [candidatesSpec_nil_iff s |>.mpr hlive]
  rfl

/-- The run identity: after any number of steps, the uncollapsed-cell count
plus the number of successful collapses so far equals the number of grid
cells. -/
theorem stepN_count (seed cols rows : Nat) :
    ∀ n, uncollapsedCount (stepN seed cols rows n) +
      successCount seed cols rows n = rows * cols := by
  intro n
  induction n with
  | zero =>
    simp only [stepN, successCount, List.range_zero, List.countP_nil, Nat.add_zero]
    simp only [uncollapsedCount, regenerate]
    simp [rowMajor_length]
  | succ n ih =>
    have hsc : successCount seed cols rows (n + 1) = successCount seed cols rows n +
        (if stepSucceeds seed (stepN seed cols rows n) then 1 else 0) := by
      simp only [successCount, List.range_succ, List.countP_append, List.countP_cons,
        List.countP_nil]
      split <;> simp
    rcases hsel : getLowestEntropy seed (stepN seed cols rows n) with _ | c
    · have hsucc : stepSucceeds seed (stepN seed cols rows n) = false := by
        simp [stepSucceeds, hsel]
      have hstep : stepN seed cols rows (n + 1) =
          { stepN seed cols rows n with collapsed := true } := by
        simp [stepN, collapseStep, hsel]
      have hcount : uncollapsedCount (stepN seed cols rows (n + 1)) =
          uncollapsedCount (stepN seed cols rows n) := by
        rw [hstep]
        rfl
      rw [hcount, hsc, hsucc]
      simpa using ih
    · have hmem := selector_some_mem seed _ c hsel
      have hlivemem : c ∈ liveCellsSpec (stepN seed cols rows n) :=
        List.mem_of_mem_filter hmem
      obtain ⟨hx, hy, hcol, hne⟩ := liveCellsSpec_mem _ c hlivemem
      have hsucc : stepSucceeds seed (stepN seed cols rows n) = true := by
        simp only [stepSucceeds, hsel]
        rw [collapseCell_success seed _ c.1 c.2 hcol hne]
      have hstep : stepN seed cols rows (n + 1) =
          propagate (stepFuel ((collapseCell seed (stepN seed cols rows n) c.1 c.2).1))
            ((collapseCell seed (stepN seed cols rows n) c.1 c.2).1) c.1 c.2 := by
        simp [stepN, collapseStep, hsel]
      have hcc : uncollapsedCount (collapseCell seed (stepN seed cols rows n) c.1 c.2).1 + 1 =
          uncollapsedCount (stepN seed cols rows n) :=
        uncollapsedCount_collapseCell seed _ c.1 c.2 hx hy hcol hne
      have hcount : uncollapsedCount (stepN seed cols rows (n + 1)) =
          uncollapsedCount (collapseCell seed (stepN seed cols rows n) c.1 c.2).1 := by
        rw [hstep, uncollapsedCount_propagate]
      rw [hcount, hsc, hsucc]
      simp only [if_true]
      omega

/-! ### Invariant machinery -/

/-- The fresh grid satisfies the cell invariant (nothing is collapsed). -/
theorem InvG_regenerate (cols rows : Nat) : InvG (regenerate cols rows).grid := by
  intro x y h
  simp [regenerate] at h

/-- `collapseCell` preserves the cell invariant. -/
theorem collapseCell_InvG (seed : Nat) (s : WFC) (x y : Nat)
    (h : InvG s.grid) : InvG ((collapseCell seed s x y).1.grid) := by
  by_cases hg : (s.grid y x).collapsed = true ∨ (s.grid y x).possible.length = 0
  · rw [collapseCell_fail seed s x y hg]
    exact h
  · push_neg at hg
    rw [collapseCell_success seed s x y (by simpa using hg.1) hg.2]
    intro x2 y2 hcol2
    simp only [setCell] at hcol2 ⊢
    split at hcol2
    · next heq =>
      rw [if_pos heq]
      exact ⟨collapseChoice seed s x y, rfl, rfl⟩
    · next heq =>
      rw [if_neg heq]
      exact h x2 y2 hcol2

/-- `collapseStep` preserves the cell invariant. -/
theorem collapseStep_InvG (seed : Nat) (s : WFC)
    (h : InvG s.grid) : InvG (collapseStep seed s).grid := by
  rcases hsel : getLowestEntropy seed s with _ | c
  · simp only [collapseStep, hsel]
    exact h
  · simp only [collapseStep, hsel]
    exact propagate_InvG _ _ c.1 c.2 (collapseCell_InvG seed s c.1 c.2 h)

/-- Every state of a run satisfies the cell invariant. -/
theorem stepN_InvG (seed cols rows : Nat) :
    ∀ n, InvG (stepN seed cols rows n).grid := by
  intro n
  induction n with
  | zero => exact InvG_regenerate cols rows
  | succ n ih => exact collapseStep_InvG seed _ ih

/-! ### Claim theorems -/

set_option maxRecDepth 40000 in
/-- C3: for every pair of tiles `A`, `B` in the catalog and every direction
`d`, `B` is a member of `ConstraintTable[A][d]` if and only if `A` is a
member of `ConstraintTable[B][opposite(d)]`, for the table built by
`buildConstraints` from the edge predicates. -/
theorem claim3_compat_symmetry :
    ∀ a ∈ tiles, ∀ b ∈ tiles, ∀ d : Dir,
      (b ∈ constraintsFor a d ↔ a ∈ constraintsFor b d.opposite) := by
  decide

/-- Witness for C3 at the concrete pair `('║', ' ')` and direction `top`. -/
theorem claim3_compat_symmetry_witness :
    '║' ∈ tiles ∧ ' ' ∈ tiles ∧
      (' ' ∈ constraintsFor '║' Dir.top ↔ '║' ∈ constraintsFor ' ' Dir.top.opposite) :=
  ⟨by decide, by decide,
    claim3_compat_symmetry '║' (by decide) ' ' (by decide) Dir.top⟩

/-- C10: calling `propagate` on a coordinate whose cell is not collapsed
leaves the whole state — every cell's domain, collapsed flag and resolved
value, the entropy array and the conflict set — unchanged. -/
theorem claim10_propagate_frame (fuel : Nat) (s : WFC) (x y : Nat)
    (h : (s.grid y x).collapsed = false) : propagate fuel s x y = s :=
  propagate_of_not_collapsed fuel s x y h

/-- Witness for C10 on a fresh 2×2 grid. -/
theorem claim10_propagate_frame_witness :
    ((regenerate 2 2).grid 0 0).collapsed = false ∧
      propagate 5 (regenerate 2 2) 0 0 = regenerate 2 2 :=
  ⟨rfl, claim10_propagate_frame 5 (regenerate 2 2) 0 0 rfl⟩

/-- C6: `collapseCell` returns `false` and changes nothing when the target
cell is collapsed or has an empty domain; otherwise it commits the cell to
one tile drawn from its current domain, marks it collapsed, returns `true`,
and mutates no other cell (nor the conflict set or dimensions). -/
theorem claim6_collapse_operator (seed : Nat) (s : WFC) (x y : Nat) :
    ((s.grid y x).collapsed = true ∨ (s.grid y x).possible.length = 0 →
      collapseCell seed s x y = (s, false)) ∧
    ((s.grid y x).collapsed = false → (s.grid y x).possible.length ≠ 0 →
      (collapseCell seed s x y).2 = true ∧
      collapseChoice seed s x y ∈ (s.grid y x).possible ∧
      (collapseCell seed s x y).1.grid y x =
        ⟨[collapseChoice seed s x y], true, some (collapseChoice seed s x y)⟩ ∧
      (∀ x2 y2 : Nat, ¬(y2 = y ∧ x2 = x) →
        (collapseCell seed s x y).1.grid y2 x2 = s.grid y2 x2) ∧
      (collapseCell seed s x y).1.conflicts = s.conflicts ∧
      (collapseCell seed s x y).1.cols = s.cols ∧
      (collapseCell seed s x y).1.rows = s.rows) := by
  constructor
  · exact collapseCell_fail seed s x y
  · intro hcol hne
    rw [collapseCell_success seed s x y hcol hne]
    refine ⟨rfl, collapseChoice_mem seed s x y hne, ?_, ?_, rfl, rfl, rfl⟩
    · simp [setCell]
    · intro x2 y2 hneq
      simp only [setCell]
      exact if_neg hneq

/-- Witness for C6: a successful collapse on a fresh 1×1 grid. -/
theorem claim6_collapse_operator_witness :
    (collapseCell 3 (regenerate 1 1) 0 0).2 = true ∧
      collapseChoice 3 (regenerate 1 1) 0 0 ∈ ((regenerate 1 1).grid 0 0).possible ∧
      (collapseCell 3 (regenerate 1 1) 0 0).1.grid 0 0 =
        ⟨[collapseChoice 3 (regenerate 1 1) 0 0], true,
          some (collapseChoice 3 (regenerate 1 1) 0 0)⟩ ∧
      (∀ x2 y2 : Nat, ¬(y2 = 0 ∧ x2 = 0) →
        (collapseCell 3 (regenerate 1 1) 0 0).1.grid y2 x2 =
          (regenerate 1 1).grid y2 x2) ∧
      (collapseCell 3 (regenerate 1 1) 0 0).1.conflicts = (regenerate 1 1).conflicts ∧
      (collapseCell 3 (regenerate 1 1) 0 0).1.cols = (regenerate 1 1).cols ∧
      (collapseCell 3 (regenerate 1 1) 0 0).1.rows = (regenerate 1 1).rows :=
  (claim6_collapse_operator 3 (regenerate 1 1) 0 0).2 rfl (by decide)

/-- C7 counterexample: at coordinate `(0, 0)` the collapse operator's draw
key `seed + x*1000 + y*100 + stepCount` coincides with the selector's key
`seed + stepCount` in the same state, so the two keys are not always
distinct. -/
theorem claim7_keys_equal_at_origin :
    collapseKey 7 0 0 (getStepCount (regenerate 2 2)) =
      selectorKey 7 (getStepCount (regenerate 2 2)) := by
  decide

/-- C7 amended: the two draw keys are distinct whenever the coordinate is
not `(0, 0)` (for natural-number coordinates `x*1000 + y*100` vanishes only
there). -/
theorem claim7_keys_distinct (seed : Nat) (s : WFC) (x y : Nat)
    (h : ¬(x = 0 ∧ y = 0)) :
    collapseKey seed x y (getStepCount s) ≠ selectorKey seed (getStepCount s) := by
  simp only [collapseKey, selectorKey]
  omega

/-- Witness for the amended C7 at coordinate `(1, 0)`. -/
theorem claim7_keys_distinct_witness :
    ¬((1 : Nat) = 0 ∧ (0 : Nat) = 0) ∧
      collapseKey 7 1 0 (getStepCount (regenerate 2 2)) ≠
        selectorKey 7 (getStepCount (regenerate 2 2)) :=
  ⟨by decide, claim7_keys_distinct 7 (regenerate 2 2) 1 0 (by decide)⟩

/-- C9 counterexample: construction with invalid input (zero dimensions)
does not fail — it returns a (degenerate, empty) grid.  The source
performs no validation and has no abort path. -/
theorem claim9_no_validation :
    regenerateOutcome 0 0 = Except.ok (regenerate 0 0) ∧
      (regenerate 0 0).cols = 0 ∧ (regenerate 0 0).rows = 0 :=
  ⟨rfl, rfl, rfl⟩

/-- C9 amended: grid construction never aborts — every input, valid or
not, yields `ok` with the constructed grid; an empty tile catalog cannot
arise because the catalog is the fixed nonempty constant `tiles`. -/
theorem claim9_construction_total (cols rows : Nat) :
    regenerateOutcome cols rows = Except.ok (regenerate cols rows) ∧ tiles ≠ [] :=
  ⟨rfl, by decide⟩

/-- C4: starting from a freshly built grid, after every step each cell
satisfies the collapsed/domain invariant: a collapsed cell's domain is
exactly its resolved value, and an uncollapsed cell's domain may hold any
number of members (zero or more). -/
theorem claim4_cell_invariant (seed cols rows n x y : Nat) :
    (((stepN seed cols rows n).grid y x).collapsed = true →
      ∃ v, ((stepN seed cols rows n).grid y x).value = some v ∧
        ((stepN seed cols rows n).grid y x).possible = [v]) ∧
    (((stepN seed cols rows n).grid y x).collapsed = false →
      0 ≤ ((stepN seed cols rows n).grid y x).possible.length) :=
  ⟨fun h => stepN_InvG seed cols rows n x y h, fun _ => Nat.zero_le _⟩

/-- Witness for C4: after one step of a 1×1 run the lone cell is collapsed
and satisfies the invariant. -/
theorem claim4_cell_invariant_witness :
    ∃ v, ((stepN 0 1 1 1).grid 0 0).value = some v ∧
      ((stepN 0 1 1 1).grid 0 0).possible = [v] :=
  (claim4_cell_invariant 0 1 1 1 0 0).1 (by decide)

/-- C5: the selector returns `none` exactly when no uncollapsed cell with
a nonempty domain exists; otherwise it returns a member of the candidate
list (the live cells achieving the minimum domain size, assembled in
row-major scan order), picked by the seeded draw keyed on the global seed
plus the number of collapsed cells. -/
theorem claim5_selector (seed : Nat) (s : WFC) :
    (getLowestEntropy seed s = none ↔ liveCellsSpec s = []) ∧
    (∀ c, getLowestEntropy seed s = some c →
      c ∈ candidatesSpec s ∧
      getLowestEntropy seed s =
        some ((candidatesSpec s).getD
          (drawIndex (selectorKey seed (getStepCount s)) (candidatesSpec s).length)
          (0, 0))) := by
  constructor
  · rw [getLowestEntropy_eq]
    by_cases h : (candidatesSpec s).length = 0
    · rw [if_pos h]
      exact iff_of_true rfl ((candidatesSpec_nil_iff s).mp (List.length_eq_zero.mp h))
    · rw [if_neg h]
      refine iff_of_false (by simp) ?_
      intro hl
      exact h (by rw [(candidatesSpec_nil_iff s).mpr hl]; rfl)
  · intro c hc
    have hlen : ¬(candidatesSpec s).length = 0 := by
      intro h0
      rw [getLowestEntropy_eq, if_pos h0] at hc
      exact absurd hc (by simp)
    refine ⟨selector_some_mem seed s c hc, ?_⟩
    rw [getLowestEntropy_eq, if_neg hlen]

/-- Witness for C5: a fresh 1×2 grid, where the selector picks `(0, 0)`. -/
theorem claim5_selector_witness :
    (0, 0) ∈ candidatesSpec (regenerate 1 2) ∧
      getLowestEntropy 0 (regenerate 1 2) =
        some ((candidatesSpec (regenerate 1 2)).getD
          (drawIndex (selectorKey 0 (getStepCount (regenerate 1 2)))
            (candidatesSpec (regenerate 1 2)).length) (0, 0)) :=
  (claim5_selector 0 (regenerate 1 2)).2 (0, 0) (by decide)

/-- C8: every successful collapse lowers the number of uncollapsed cells
by exactly one, propagation (including contradiction resets) never changes
that number, at most `rows × cols` successful collapses can occur in any
run, and once every cell is collapsed the next step sets the `Complete`
flag. -/
theorem claim8_termination (seed : Nat) :
    (∀ (s : WFC) (x y : Nat), x < s.cols → y < s.rows →
      (collapseCell seed s x y).2 = true →
      uncollapsedCount (collapseCell seed s x y).1 + 1 = uncollapsedCount s) ∧
    (∀ (fuel : Nat) (s : WFC) (x y : Nat),
      uncollapsedCount (propagate fuel s x y) = uncollapsedCount s) ∧
    (∀ cols rows n : Nat, successCount seed cols rows n ≤ rows * cols) ∧
    (∀ s : WFC, uncollapsedCount s = 0 → (collapseStep seed s).collapsed = true) := by
  refine ⟨?_, ?_, ?_, ?_⟩
  · intro s x y hx hy hsucc
    by_cases hg : (s.grid y x).collapsed = true ∨ (s.grid y x).possible.length = 0
    · rw [collapseCell_fail seed s x y hg] at hsucc
      exact absurd hsucc (by simp)
    · push_neg at hg
      exact uncollapsedCount_collapseCell seed s x y hx hy (by simpa using hg.1) hg.2
  · exact uncollapsedCount_propagate
  · intro cols rows n
    have := stepN_count seed cols rows n
    omega
  · intro s h
    simp [collapseStep, selector_none_of_count_zero seed s h]

/-- Witness for C8: a successful collapse on a fresh 1×1 grid lowers the
uncollapsed count from one to zero. -/
theorem claim8_termination_witness :
    uncollapsedCount (collapseCell 3 (regenerate 1 1) 0 0).1 + 1 =
      uncollapsedCount (regenerate 1 1) :=
  (claim8_termination 3).1 (regenerate 1 1) 0 0 (by decide) (by decide) (by decide)

set_option maxRecDepth 40000 in
/-- C1 counterexample: on a 3×1 grid whose origin `(0, 0)` is collapsed to
`'═'` and whose middle cell was already narrowed to `[' ', '═']`,
`propagate` from the origin shrinks the middle cell's domain to `['═']`
but never re-applies the rule from the middle cell to the right cell — the
recursive call returns at the not-collapsed guard — so after `propagate`
returns a further domain change is still possible: the result is not the
arc-consistency fixpoint. -/
theorem claim1_propagate_not_fixpoint :
    (c1state.grid 0 0).collapsed = true ∧
      noFurtherChange (propagate (stepFuel c1state) c1state 0 0) = false := by
  exact ⟨by decide, by decide⟩

/-- C1 amended: `propagate` applies the constraint-intersection rule
exactly once to each in-bounds uncollapsed neighbor of the collapsed
origin, and nothing more: every recursive call on a changed cell returns
immediately (changed cells are uncollapsed), so the whole call equals the
single neighbor pass `propagateOnce` and need not reach a fixpoint. -/
theorem claim1_single_pass (fuel : Nat) (s : WFC) (x y : Nat) :
    propagate (fuel + 1) s x y = propagateOnce s x y :=
  propagate_succ_eq_once fuel s x y

set_option maxRecDepth 40000 in
/-- For every catalog tile and direction, the constraint entry never
admits the whole catalog: filtering the catalog by it is strictly
shrinking. -/
theorem tiles_filter_allowed_lt :
    ∀ t ∈ tiles, ∀ d : Dir,
      ((tiles.filter (fun u => (constraintsFor t d).contains u)).length < tiles.length) := by
  decide

/-- C2: in a propagation step on an in-bounds uncollapsed neighbor whose
domain is a sublist of the catalog, (a) if intersecting the domain with
the constraint entry empties it, the neighbor's key is recorded in the
conflict set and the domain is reset to the full catalog, and (b) a key
already in the (duplicate-free) conflict set is removed exactly when the
pass leaves the domain nonempty — equivalently, strictly below the
catalog size without emptying it. -/
theorem claim2_conflict_set (s : WFC) (changed : List (Nat × Nat)) (tile : Char)
    (nx ny : Int) (d : Dir)
    (hb : ¬(nx < 0 ∨ (s.cols : Int) ≤ nx ∨ ny < 0 ∨ (s.rows : Int) ≤ ny))
    (hcol : (s.grid ny.toNat nx.toNat).collapsed = false)
    (htile : tile ∈ tiles)
    (hsub : (s.grid ny.toNat nx.toNat).possible.Sublist tiles)
    (hnd : s.conflicts.Nodup) :
    ((s.grid ny.toNat nx.toNat).possible.filter
        (fun t => (constraintsFor tile d).contains t) = [] →
      conflictKey nx.toNat ny.toNat ∈
        (processNeighbor tile (s, changed) (nx, ny, d)).1.conflicts ∧
      ((processNeighbor tile (s, changed) (nx, ny, d)).1.grid ny.toNat nx.toNat).possible
        = tiles) ∧
    (conflictKey nx.toNat ny.toNat ∈ s.conflicts →
      (conflictKey nx.toNat ny.toNat ∉
          (processNeighbor tile (s, changed) (nx, ny, d)).1.conflicts ↔
        ((s.grid ny.toNat nx.toNat).possible.filter
            (fun t => (constraintsFor tile d).contains t) ≠ [] ∧
          ((s.grid ny.toNat nx.toNat).possible.filter
            (fun t => (constraintsFor tile d).contains t)).length < tiles.length))) := by
  simp only [processNeighbor]
  rw [if_neg hb]
  rw [if_neg (by simp [hcol])]
  by_cases hlen : (List.filter (fun t => (constraintsFor tile d).contains t)
      (s.grid ny.toNat nx.toNat).possible).length = 0
  · rw [if_pos hlen]
    constructor
    · intro _
      constructor
      · by_cases hcont : s.conflicts.contains (conflictKey nx.toNat ny.toNat)
        · simp only [if_pos hcont]
          simpa using hcont
        · simp only [if_neg hcont]
          simp
      · simp [setCell]
    · intro hin
      have hemp : (s.grid ny.toNat nx.toNat).possible.filter
          (fun t => (constraintsFor tile d).contains t) = [] :=
        List.length_eq_zero.mp hlen
      refine iff_of_false ?_ ?_
      · intro hnot
        apply hnot
        by_cases hcont : s.conflicts.contains (conflictKey nx.toNat ny.toNat)
        · simp only [if_pos hcont]
          exact hin
        · simp only [if_neg hcont]
          exact List.mem_append_left _ hin
      · intro hcontra
        exact hcontra.1 hemp
  · rw [if_neg hlen]
    constructor
    · intro hemp
      exact absurd (by rw [hemp]; rfl) hlen
    · intro hin
      refine iff_of_true ?_ ?_
      · exact hnd.not_mem_erase
      · refine ⟨fun h => hlen (by rw [h]; rfl), ?_⟩
        have h1 : ((s.grid ny.toNat nx.toNat).possible.filter
            (fun t => (constraintsFor tile d).contains t)).Sublist
            (tiles.filter (fun t => (constraintsFor tile d).contains t)) :=
          hsub.filter _
        exact Nat.lt_of_le_of_lt h1.length_le (tiles_filter_allowed_lt tile htile d)

/-- Witness for C2: processing the right neighbor of `c2state`'s collapsed
origin empties its domain, records it in the conflict set and resets it to
the full catalog. -/
theorem claim2_conflict_set_witness :
    ((c2state.grid (0 : Int).toNat (1 : Int).toNat).possible.filter
        (fun t => (constraintsFor '═' Dir.right).contains t) = [] →
      conflictKey (1 : Int).toNat (0 : Int).toNat ∈
        (processNeighbor '═' (c2state, []) (1, 0, Dir.right)).1.conflicts ∧
      ((processNeighbor '═' (c2state, []) (1, 0, Dir.right)).1.grid
        (0 : Int).toNat (1 : Int).toNat).possible = tiles) ∧
    (conflictKey (1 : Int).toNat (0 : Int).toNat ∈ c2state.conflicts →
      (conflictKey (1 : Int).toNat (0 : Int).toNat ∉
          (processNeighbor '═' (c2state, []) (1, 0, Dir.right)).1.conflicts ↔
        ((c2state.grid (0 : Int).toNat (1 : Int).toNat).possible.filter
            (fun t => (constraintsFor '═' Dir.right).contains t) ≠ [] ∧
          ((c2state.grid (0 : Int).toNat (1 : Int).toNat).possible.filter
            (fun t => (constraintsFor '═' Dir.right).contains t)).length <
            tiles.length))) :=
  claim2_conflict_set c2state [] '═' 1 0 Dir.right (by decide) (by decide)
    (by decide) (by decide) (by decide)

end WFCV
